import Mathlib

/-!
Verification development for the userver component-orchestration fragment:
the component manager / resolution context lifecycle (spec sections 3-5,
documented in `core/include/components/manager_controller_component.hpp`),
the statistics storage component
(`core/include/components/statistics_storage.hpp`) and the redis
subscribe client (`redis/include/storages/redis/subscribe_client.hpp`).

The manager / resolution-context implementation itself is not part of the
source excerpt (only its documentation and declarations are), so those
operations are modelled from the specification text; the definitions say so
in their doc comments. The subscribe-client overloads and the statistics
storage accessors are translated from the inline code in the headers.
-/

namespace Userver

/-- Modelled from the spec: lifecycle states of a module entry
(spec data model; `ComponentContext` implementation is not in the excerpt). -/
inductive ModuleState where
  | NotStarted
  | Constructing
  | Ready
  | Failed
  | Destroying
  | Destroyed
deriving DecidableEq, Repr

/-- Modelled from the spec: post-barrier snapshot of one `ModuleEntry`.
`completionSeq` is the monotonically increasing number assigned the instant
the entry turned Ready or Failed (here it doubles as that global instant);
`resolves` records the successful `resolve(target)` calls the module's
construction made, together with the global instant of each call. -/
structure ModuleEntry where
  name : String
  state : ModuleState
  completionSeq : Option Nat
  resolves : List (String × Nat)
deriving DecidableEq, Repr

/-- Modelled from the spec: the state of one finished startup barrier
(every spawned task has reached a terminal state). -/
structure Run where
  entries : List ModuleEntry
deriving DecidableEq, Repr

/-- Terminal states of the startup phase: Ready or Failed. -/
abbrev Terminal (s : ModuleState) : Prop := s = ModuleState.Ready ∨ s = ModuleState.Failed

/-- An entry that was assigned a `completionSeq`. -/
abbrev completedEntry (a : ModuleEntry) : Prop := a.completionSeq.isSome = true

/-- The completion sequence number of an entry, defaulting to 0. -/
def seqOf (a : ModuleEntry) : Nat := a.completionSeq.getD 0

/-- Modelled from the spec: a successful resolve record `(target, instant)` of
entry `a` is consistent with the run: `a` reached a terminal state after the
call, and the target entry was already Ready (hence had its `completionSeq`)
strictly before the call instant. -/
abbrev resolveOk (entries : List ModuleEntry) (a : ModuleEntry) (p : String × Nat) : Prop :=
  completedEntry a ∧ p.2 < seqOf a ∧
    ∃ b ∈ entries, b.name = p.1 ∧ b.state = ModuleState.Ready ∧
      completedEntry b ∧ seqOf b < p.2

/-- Modelled from the spec: well-formedness of a post-barrier run snapshot.
Names are unique; completion sequence numbers are distinct over completed
entries; an entry is terminal iff it got a `completionSeq`; after the barrier
every entry is NotStarted or terminal; every recorded resolve is consistent. -/
abbrev RunWf (r : Run) : Prop :=
  r.entries.Pairwise (fun a b => a.name ≠ b.name) ∧
  r.entries.Pairwise (fun a b => completedEntry a → completedEntry b → seqOf a ≠ seqOf b) ∧
  ∀ a ∈ r.entries,
    (Terminal a.state ↔ completedEntry a) ∧
    (a.state = ModuleState.NotStarted ∨ Terminal a.state) ∧
    ∀ p ∈ a.resolves, resolveOk r.entries a p

/-- Modelled from the spec: a fully successful run (all entries Ready). -/
abbrev runSuccess (r : Run) : Prop := ∀ e ∈ r.entries, e.state = ModuleState.Ready

/-- The entries that were assigned a `completionSeq`. -/
def completedEntries (l : List ModuleEntry) : List ModuleEntry :=
  l.filter fun e => e.completionSeq.isSome

/-- Insert an entry into a list kept in descending `completionSeq` order. -/
def insertDesc (e : ModuleEntry) : List ModuleEntry → List ModuleEntry
  | [] => [e]
  | f :: fs => if seqOf f ≤ seqOf e then e :: f :: fs else f :: insertDesc e fs

/-- Sort entries into descending `completionSeq` order. -/
def sortDesc : List ModuleEntry → List ModuleEntry
  | [] => []
  | e :: es => insertDesc e (sortDesc es)

/-- Modelled from the spec: the manager's `stop` pass visits exactly the
entries with a `completionSeq`, in descending `completionSeq` order. -/
def stopOrder (r : Run) : List ModuleEntry := sortDesc (completedEntries r.entries)

/-- Position of the first entry called `n` in a visit list. -/
def posOfName (l : List ModuleEntry) (n : String) : Option Nat :=
  match l with
  | [] => none
  | e :: es => if e.name = n then some 0 else (posOfName es n).map (· + 1)

/-- Position of module `n` in the teardown visit sequence of run `r`. -/
def teardownPos (r : Run) (n : String) : Option Nat := posOfName (stopOrder r) n

/-- Modelled from the spec: the post-barrier hook pass visits modules in
ascending `completionSeq` order (ran only on success). -/
def onAllComponentsLoadedOrder (r : Run) : List ModuleEntry :=
  (sortDesc (completedEntries r.entries)).reverse

/- ## Resolution context (modelled from the spec) -/

/-- Modelled from the spec: a live registry entry of the ResolutionContext.
`inst` holds the shared handle (present once Ready); `waiters` is the ordered
collection of suspended callers blocked on this entry. -/
structure CtxEntry where
  name : String
  state : ModuleState
  inst : Option Nat
  waiters : List String
deriving DecidableEq, Repr

/-- Modelled from the spec: the per-run ResolutionContext registry together
with the run's shared cancellation flag. -/
structure Ctx where
  entries : List CtxEntry
  cancelled : Bool
deriving DecidableEq, Repr

/-- Look up the entry registered under `n`. -/
def findEntry (ctx : Ctx) (n : String) : Option CtxEntry :=
  ctx.entries.find? fun e => e.name == n

/-- Modelled from the spec: the wait-for relation. Task `m` waits on the entry
that currently holds `m` in its waiter queue. -/
def waitTarget (ctx : Ctx) (m : String) : Option String :=
  (ctx.entries.find? fun e => e.waiters.contains m).map fun e => e.name

/-- Modelled from the spec: walk the wait-for relation from `cur` with fuel;
true when the walk revisits `c`. -/
def walkRevisits (ctx : Ctx) (c : String) : Nat → String → Bool
  | 0, _ => false
  | fuel + 1, cur =>
    if cur = c then true
    else
      match waitTarget ctx cur with
      | none => false
      | some nxt => walkRevisits ctx c fuel nxt

/-- Modelled from the spec: cycle check run before suspending `caller` on
`target`: does the wait-for walk starting at `target` revisit `caller`? -/
def hasCycle (ctx : Ctx) (caller target : String) : Bool :=
  walkRevisits ctx caller (ctx.entries.length + 1) target

/-- Enqueue `caller` at the back of `target`'s waiter queue. -/
def addWaiter (ctx : Ctx) (target caller : String) : Ctx :=
  { ctx with
    entries := ctx.entries.map fun e =>
      if e.name = target then { e with waiters := e.waiters ++ [caller] } else e }

/-- Outcome of one `resolve` call, as observed by the caller. -/
inductive ResolveResult where
  | ok (inst : Nat)
  | suspended
  | loadCancelled
  | dependencyCycle
  | unknownDependency
deriving DecidableEq, Repr

/-- Modelled from the spec: `resolve(name)` of the ResolutionContext.
Cancellation fails immediately; Ready returns the handle immediately;
Constructing runs the cycle check and otherwise enqueues the caller and
suspends; Failed / Destroying / Destroyed fail with load-cancelled;
NotStarted or unregistered names fail with unknown-dependency. -/
def resolve (ctx : Ctx) (caller target : String) : ResolveResult × Ctx :=
  if ctx.cancelled then (ResolveResult.loadCancelled, ctx)
  else
    match findEntry ctx target with
    | none => (ResolveResult.unknownDependency, ctx)
    | some e =>
      match e.state with
      | ModuleState.Ready => (ResolveResult.ok (e.inst.getD 0), ctx)
      | ModuleState.Constructing =>
        if hasCycle ctx caller target then (ResolveResult.dependencyCycle, ctx)
        else (ResolveResult.suspended, addWaiter ctx target caller)
      | ModuleState.NotStarted => (ResolveResult.unknownDependency, ctx)
      | _ => (ResolveResult.loadCancelled, ctx)

/-- Modelled from the spec: the transition of entry `n` to Ready, delivering
the instance handle to every waiter and clearing the queue. -/
def markReady (ctx : Ctx) (n : String) (inst : Nat) : Ctx × List (String × ResolveResult) :=
  match findEntry ctx n with
  | none => (ctx, [])
  | some e =>
    ({ ctx with
       entries := ctx.entries.map fun f =>
         if f.name = n then { f with state := ModuleState.Ready, inst := some inst, waiters := [] }
         else f },
     e.waiters.map fun w => (w, ResolveResult.ok inst))

/-- Modelled from the spec: setting the global cancellation flag wakes every
suspended waiter of every entry with a load-cancelled failure. -/
def setCancelled (ctx : Ctx) : Ctx × List (String × ResolveResult) :=
  ({ entries := ctx.entries.map fun e => { e with waiters := [] }, cancelled := true },
   ctx.entries.flatMap fun e => e.waiters.map fun w => (w, ResolveResult.loadCancelled))

/- ## Static config `load-enabled` (modelled from the documentation table) -/

/-- Modelled from the spec: the slice of a component's static config that the
manager consults before constructing it; `loadEnabledOpt` is the value of the
`load-enabled` option when the config section sets one. -/
structure ComponentConfig where
  name : String
  loadEnabledOpt : Option Bool
deriving DecidableEq, Repr

/-- Modelled from the spec: the effective `load-enabled` value; the
documentation table gives default value `true`. -/
def loadEnabled (c : ComponentConfig) : Bool := c.loadEnabledOpt.getD true

/-- Modelled from the spec: the components the manager constructs during the
run: exactly those whose effective `load-enabled` is true. -/
def componentsToLoad (cfgs : List ComponentConfig) : List ComponentConfig :=
  cfgs.filter loadEnabled

/- ## Statistics storage component (from `statistics_storage.hpp`) -/

/-- The `utils::statistics::Storage` object kept by the component; its
contents are opaque to the excerpt, identity is modelled by `id`. -/
structure Storage where
  id : Nat
deriving DecidableEq, Repr

/-- `components::StatisticsStorage`: keeps a `Storage` in its `storage_`
member and a metrics-storage handle (opaque) in `metrics_storage_`. -/
structure StatisticsStorage where
  storage_ : Storage
  metrics_storage_ : Nat
deriving DecidableEq, Repr

/-- `utils::statistics::Storage& GetStorage() { return storage_; }` -/
def StatisticsStorage.GetStorage (s : StatisticsStorage) : Storage := s.storage_

/-- `const utils::statistics::Storage& GetStorage() const { return storage_; }` -/
def StatisticsStorage.GetStorageConst (s : StatisticsStorage) : Storage := s.storage_

/-- `GetMetricsStorage() { return metrics_storage_; }` -/
def StatisticsStorage.GetMetricsStorage (s : StatisticsStorage) : Nat := s.metrics_storage_

/- ## Redis subscribe client (from `subscribe_client.hpp`) -/

/-- `storages::redis::SubscribeClient`: the pure virtual three-argument
`Subscribe` / `Psubscribe` are modelled as function-valued fields supplied by
the concrete implementation; `defaultCommandControl` models a
default-constructed `::redis::CommandControl`, i.e. the braces argument. -/
structure SubscribeClient (Token Cb PCb CC : Type) where
  defaultCommandControl : CC
  SubscribeImpl : String → Cb → CC → Token
  PsubscribeImpl : String → PCb → CC → Token

/-- The virtual `Subscribe(channel, on_message_cb, command_control)`. -/
def SubscribeClient.Subscribe (c : SubscribeClient Token Cb PCb CC)
    (channel : String) (on_message_cb : Cb) (command_control : CC) : Token :=
  c.SubscribeImpl channel on_message_cb command_control

/-- The virtual `Psubscribe(pattern, on_pmessage_cb, command_control)`. -/
def SubscribeClient.Psubscribe (c : SubscribeClient Token Cb PCb CC)
    (pat : String) (on_pmessage_cb : PCb) (command_control : CC) : Token :=
  c.PsubscribeImpl pat on_pmessage_cb command_control

/-- The two-argument overload:
`return Subscribe(std::move(channel), std::move(on_message_cb), {});` -/
def SubscribeClient.SubscribeNoControl (c : SubscribeClient Token Cb PCb CC)
    (channel : String) (on_message_cb : Cb) : Token :=
  c.Subscribe channel on_message_cb c.defaultCommandControl

/-- The two-argument overload:
`return Psubscribe(std::move(pattern), std::move(on_pmessage_cb), {});` -/
def SubscribeClient.PsubscribeNoControl (c : SubscribeClient Token Cb PCb CC)
    (pat : String) (on_pmessage_cb : PCb) : Token :=
  c.Psubscribe pat on_pmessage_cb c.defaultCommandControl

/-- Stated from the spec sentence for comparison: the two-argument call is the
three-argument overload at a default-constructed `CommandControl`. -/
def SubscribeClient.SubscribeSpec (c : SubscribeClient Token Cb PCb CC)
    (channel : String) (on_message_cb : Cb) : Token :=
  c.Subscribe channel on_message_cb c.defaultCommandControl

/-- Stated from the spec sentence for comparison: the two-argument call is the
three-argument overload at a default-constructed `CommandControl`. -/
def SubscribeClient.PsubscribeSpec (c : SubscribeClient Token Cb PCb CC)
    (pat : String) (on_pmessage_cb : PCb) : Token :=
  c.Psubscribe pat on_pmessage_cb c.defaultCommandControl

/- ## Concrete inputs used to instantiate the theorems -/

/-- A run where module `a` (seq 3) resolved `b` (seq 1) at instant 2. -/
def runC1 : Run :=
  ⟨[⟨"a", ModuleState.Ready, some 3, [("b", 2)]⟩,
    ⟨"b", ModuleState.Ready, some 1, []⟩]⟩

/-- A run where module `a` (seq 3) resolved `b` (seq 1) at instant 2, and an
independent module `c` completed last. -/
def runC2 : Run :=
  ⟨[⟨"a", ModuleState.Ready, some 3, [("b", 2)]⟩,
    ⟨"b", ModuleState.Ready, some 1, []⟩,
    ⟨"c", ModuleState.Ready, some 4, []⟩]⟩

/-- A fully successful run of three modules. -/
def runC6 : Run :=
  ⟨[⟨"x", ModuleState.Ready, some 2, []⟩,
    ⟨"y", ModuleState.Ready, some 5, [("x", 3)]⟩,
    ⟨"z", ModuleState.Ready, some 1, []⟩]⟩

/-- A cancelled run: `m` failed, `n` never started. -/
def runC7 : Run :=
  ⟨[⟨"m", ModuleState.Failed, some 1, []⟩,
    ⟨"k", ModuleState.Ready, some 0, []⟩,
    ⟨"n", ModuleState.NotStarted, none, []⟩]⟩

/-- A live context: `a` is Ready with handle 7, `b` is Constructing with one
suspended waiter `w0`. -/
def ctxC3 : Ctx :=
  ⟨[⟨"a", ModuleState.Ready, some 7, []⟩,
    ⟨"b", ModuleState.Constructing, none, ["w0"]⟩], false⟩

/-- A live context where `b` is already suspended waiting on `a`, so `a`
resolving `b` closes a cycle of length 2. -/
def ctxC5 : Ctx :=
  ⟨[⟨"a", ModuleState.Constructing, none, ["b"]⟩,
    ⟨"b", ModuleState.Constructing, none, []⟩], false⟩

/-- A live context with a Failed entry and a waiter suspended on `b`. -/
def ctxC4 : Ctx :=
  ⟨[⟨"f", ModuleState.Failed, none, []⟩,
    ⟨"b", ModuleState.Constructing, none, ["w1"]⟩], false⟩

/-- A context whose global cancellation flag is already set. -/
def ctxC4c : Ctx :=
  ⟨[⟨"a", ModuleState.Ready, some 1, []⟩], true⟩

/-- A static config set: `p` says nothing, `q` disables loading, `s` enables
it explicitly. -/
def cfgsC10 : List ComponentConfig :=
  [⟨"p", none⟩, ⟨"q", some false⟩, ⟨"s", some true⟩]

/- ## Helper lemmas -/

theorem posOfName_cons_self {e : ModuleEntry} {es : List ModuleEntry} {n : String}
    (h : e.name = n) : posOfName (e :: es) n = some 0 := by
  simp [posOfName, h]

theorem posOfName_cons_ne {e : ModuleEntry} {es : List ModuleEntry} {n : String}
    (h : e.name ≠ n) : posOfName (e :: es) n = (posOfName es n).map (· + 1) := by
  simp [posOfName, h]

theorem posOfName_some_of_mem {l : List ModuleEntry} {e : ModuleEntry} (h : e ∈ l) :
    ∃ i, posOfName l e.name = some i := by
  induction l with
  | nil => cases h
  | cons f fs ih =>
    by_cases hf : f.name = e.name
    · exact ⟨0, posOfName_cons_self hf⟩
    · rcases List.mem_cons.mp h with rfl | hmem
      · exact absurd rfl hf
      · obtain ⟨i, hi⟩ := ih hmem
        exact ⟨i + 1, by rw [posOfName_cons_ne hf, hi]; rfl⟩

theorem mem_of_posOfName_some {l : List ModuleEntry} {n : String} {i : Nat}
    (h : posOfName l n = some i) : ∃ e, e ∈ l ∧ e.name = n := by
  induction l generalizing i with
  | nil => simp [posOfName] at h
  | cons f fs ih =>
    by_cases hf : f.name = n
    · exact ⟨f, List.mem_cons_self f fs, hf⟩
    · rw [posOfName_cons_ne hf] at h
      rcases Option.map_eq_some'.mp h with ⟨j, hj, _⟩
      obtain ⟨e, he, hen⟩ := ih hj
      exact ⟨e, List.mem_cons_of_mem f he, hen⟩

theorem posOfName_order (l : List ModuleEntry) (X Y : ModuleEntry)
    (hn : l.Pairwise (fun a b => a.name ≠ b.name))
    (hs : l.Pairwise (fun a b => seqOf b < seqOf a))
    (hX : X ∈ l) (hY : Y ∈ l) (hlt : seqOf X < seqOf Y) :
    ∃ i j, posOfName l Y.name = some i ∧ posOfName l X.name = some j ∧ i < j := by
  induction l with
  | nil => cases hX
  | cons e es ih =>
    rcases List.pairwise_cons.mp hn with ⟨hne, hn'⟩
    rcases List.pairwise_cons.mp hs with ⟨hse, hs'⟩
    rcases List.mem_cons.mp hY with rfl | hYes
    · have hXes : X ∈ es := by
        rcases List.mem_cons.mp hX with rfl | h
        · exact absurd hlt (lt_irrefl _)
        · exact h
      obtain ⟨j, hj⟩ := posOfName_some_of_mem hXes
      refine ⟨0, j + 1, posOfName_cons_self rfl, ?_, Nat.succ_pos j⟩
      rw [posOfName_cons_ne (hne X hXes), hj]; rfl
    · have hXes : X ∈ es := by
        rcases List.mem_cons.mp hX with rfl | h
        · exact absurd (hse Y hYes) (Nat.lt_asymm hlt)
        · exact h
      obtain ⟨i, j, hi, hj, hij⟩ := ih hn' hs' hXes hYes
      refine ⟨i + 1, j + 1, ?_, ?_, Nat.succ_lt_succ hij⟩
      · rw [posOfName_cons_ne (hne Y hYes), hi]; rfl
      · rw [posOfName_cons_ne (hne X hXes), hj]; rfl

theorem insertDesc_perm (e : ModuleEntry) (l : List ModuleEntry) :
    (insertDesc e l).Perm (e :: l) := by
  induction l with
  | nil => exact List.Perm.refl _
  | cons f fs ih =>
    by_cases h : seqOf f ≤ seqOf e
    · simp [insertDesc, h]
    · simp only [insertDesc, h, if_false]
      exact (ih.cons f).trans (List.Perm.swap e f fs)

theorem sortDesc_perm (l : List ModuleEntry) : (sortDesc l).Perm l := by
  induction l with
  | nil => exact List.Perm.refl _
  | cons e es ih =>
    exact (insertDesc_perm e (sortDesc es)).trans (ih.cons e)

theorem pairwise_ge_insertDesc (e : ModuleEntry) (l : List ModuleEntry)
    (h : l.Pairwise (fun a b => seqOf b ≤ seqOf a)) :
    (insertDesc e l).Pairwise (fun a b => seqOf b ≤ seqOf a) := by
  induction l with
  | nil => simp [insertDesc]
  | cons f fs ih =>
    rcases List.pairwise_cons.mp h with ⟨hf, hfs⟩
    by_cases hle : seqOf f ≤ seqOf e
    · simp only [insertDesc, hle, if_true]
      refine List.pairwise_cons.mpr ⟨?_, h⟩
      intro b hb
      rcases List.mem_cons.mp hb with rfl | hbfs
      · exact hle
      · exact le_trans (hf b hbfs) hle
    · simp only [insertDesc, hle, if_false]
      refine List.pairwise_cons.mpr ⟨?_, ih hfs⟩
      intro b hb
      have hb' : b = e ∨ b ∈ fs := by
        have := (insertDesc_perm e fs).mem_iff.mp hb
        simpa using this
      rcases hb' with rfl | hbfs
      · exact le_of_lt (Nat.lt_of_not_le hle)
      · exact hf b hbfs

theorem sortDesc_pairwise_ge (l : List ModuleEntry) :
    (sortDesc l).Pairwise (fun a b => seqOf b ≤ seqOf a) := by
  induction l with
  | nil => simp [sortDesc]
  | cons e es ih => exact pairwise_ge_insertDesc e (sortDesc es) ih

theorem mem_stopOrder {r : Run} {a : ModuleEntry} :
    a ∈ stopOrder r ↔ a ∈ r.entries ∧ a.completionSeq.isSome = true := by
  unfold stopOrder completedEntries
  rw [(sortDesc_perm _).mem_iff, List.mem_filter]

theorem stopOrder_pairwise_names {r : Run} (hwf : RunWf r) :
    (stopOrder r).Pairwise fun a b => a.name ≠ b.name := by
  have h1 : (completedEntries r.entries).Pairwise (fun a b => a.name ≠ b.name) :=
    hwf.1.filter _
  exact (List.Perm.pairwise_iff (fun h => Ne.symm h) (sortDesc_perm _)).mpr h1

theorem stopOrder_pairwise_lt {r : Run} (hwf : RunWf r) :
    (stopOrder r).Pairwise fun a b => seqOf b < seqOf a := by
  have hge := sortDesc_pairwise_ge (completedEntries r.entries)
  have hne0 : (completedEntries r.entries).Pairwise
      (fun a b => completedEntry a → completedEntry b → seqOf a ≠ seqOf b) :=
    hwf.2.1.filter _
  have hne : (stopOrder r).Pairwise
      (fun a b => completedEntry a → completedEntry b → seqOf a ≠ seqOf b) :=
    (List.Perm.pairwise_iff (fun h hb ha => Ne.symm (h ha hb)) (sortDesc_perm _)).mpr hne0
  have hand := List.Pairwise.and hge hne
  refine List.Pairwise.imp_of_mem ?_ hand
  intro a b ha hb hab
  have hca : completedEntry a := (mem_stopOrder.mp ha).2
  have hcb : completedEntry b := (mem_stopOrder.mp hb).2
  exact lt_of_le_of_ne hab.1 (Ne.symm (hab.2 hca hcb))

/-- C1: teardown visits modules in strictly decreasing `completionSeq`: if two
modules both reached a terminal state and X completed before Y, then the stop
pass begins X's teardown strictly after it begins Y's teardown, independent of
dependency edges. -/
theorem stop_reverse_completion (r : Run) (hwf : RunWf r) (X Y : ModuleEntry)
    (hX : X ∈ r.entries) (hY : Y ∈ r.entries) (sx sy : Nat)
    (hsx : X.completionSeq = some sx) (hsy : Y.completionSeq = some sy) (hlt : sx < sy) :
    (∃ i j, teardownPos r Y.name = some i ∧ teardownPos r X.name = some j ∧ i < j)
    ∧ (stopOrder r).Pairwise (fun a b => seqOf b < seqOf a) := by
  have hXs : X ∈ stopOrder r := mem_stopOrder.mpr ⟨hX, by rw [hsx]; rfl⟩
  have hYs : Y ∈ stopOrder r := mem_stopOrder.mpr ⟨hY, by rw [hsy]; rfl⟩
  have hseq : seqOf X < seqOf Y := by simpa [seqOf, hsx, hsy] using hlt
  obtain ⟨i, j, hi, hj, hij⟩ :=
    posOfName_order (stopOrder r) X Y (stopOrder_pairwise_names hwf)
      (stopOrder_pairwise_lt hwf) hXs hYs hseq
  exact ⟨⟨i, j, hi, hj, hij⟩, stopOrder_pairwise_lt hwf⟩

/-- C1 witness at a concrete run: `b` completed first (seq 1), `a` second
(seq 3); teardown visits `a` before `b`. -/
theorem stop_reverse_completion_witness :
    (∃ i j, teardownPos runC1 "a" = some i ∧ teardownPos runC1 "b" = some j ∧ i < j)
    ∧ (stopOrder runC1).Pairwise (fun a b => seqOf b < seqOf a) :=
  stop_reverse_completion runC1 (by decide)
    ⟨"b", ModuleState.Ready, some 1, []⟩
    ⟨"a", ModuleState.Ready, some 3, [("b", 2)]⟩
    (by decide) (by decide) 1 3 rfl rfl (by decide)

/-- C2: if module `a`'s construction successfully resolved `bn`, then the stop
pass begins `a`'s teardown strictly before `bn`'s teardown: the reference
obtained via resolve outlives the module that obtained it. -/
theorem resolve_outlives (r : Run) (hwf : RunWf r) (a : ModuleEntry) (ha : a ∈ r.entries)
    (bn : String) (t : Nat) (hres : (bn, t) ∈ a.resolves) :
    ∃ i j, teardownPos r a.name = some i ∧ teardownPos r bn = some j ∧ i < j := by
  obtain ⟨hcomp, hta, b, hb, hbn, _, hbcomp, hbt⟩ := (hwf.2.2 a ha).2.2 (bn, t) hres
  have hseq : seqOf b < seqOf a := lt_trans hbt hta
  have has : a ∈ stopOrder r := mem_stopOrder.mpr ⟨ha, hcomp⟩
  have hbs : b ∈ stopOrder r := mem_stopOrder.mpr ⟨hb, hbcomp⟩
  obtain ⟨i, j, hi, hj, hij⟩ :=
    posOfName_order (stopOrder r) b a (stopOrder_pairwise_names hwf)
      (stopOrder_pairwise_lt hwf) hbs has hseq
  have hbn' : b.name = bn := hbn
  exact ⟨i, j, hi, hbn' ▸ hj, hij⟩

/-- C2 witness at a concrete run: `a` resolved `b`; teardown reaches `a`
strictly before `b`. -/
theorem resolve_outlives_witness :
    ∃ i j, teardownPos runC2 "a" = some i ∧ teardownPos runC2 "b" = some j ∧ i < j :=
  resolve_outlives runC2 (by decide)
    ⟨"a", ModuleState.Ready, some 3, [("b", 2)]⟩ (by decide) "b" 2 (by decide)

/-- C6: on a successful startup every entry is terminal before the hook pass
runs, each module appears in the hook visit sequence, and that sequence is in
strictly ascending `completionSeq` order. -/
theorem on_all_components_loaded_pass (r : Run) (hwf : RunWf r) (hs : runSuccess r) :
    (∀ e ∈ r.entries, Terminal e.state)
    ∧ (∀ e ∈ r.entries, e ∈ onAllComponentsLoadedOrder r)
    ∧ (onAllComponentsLoadedOrder r).Pairwise (fun a b => seqOf a < seqOf b) := by
  refine ⟨fun e he => Or.inl (hs e he), fun e he => ?_, ?_⟩
  · have hcomp : completedEntry e := ((hwf.2.2 e he).1).mp (Or.inl (hs e he))
    have hmem : e ∈ sortDesc (completedEntries r.entries) :=
      (sortDesc_perm _).mem_iff.mpr (List.mem_filter.mpr ⟨he, hcomp⟩)
    unfold onAllComponentsLoadedOrder
    exact List.mem_reverse.mpr hmem
  · unfold onAllComponentsLoadedOrder
    rw [List.pairwise_reverse]
    exact stopOrder_pairwise_lt hwf

/-- C6 witness at a concrete successful run. -/
theorem on_all_components_loaded_pass_witness :
    (∀ e ∈ runC6.entries, Terminal e.state)
    ∧ (∀ e ∈ runC6.entries, e ∈ onAllComponentsLoadedOrder runC6)
    ∧ (onAllComponentsLoadedOrder runC6).Pairwise (fun a b => seqOf a < seqOf b) :=
  on_all_components_loaded_pass runC6 (by decide) (by decide)

/-- C7: an entry that never left NotStarted has no `completionSeq`, never
appears in the teardown visit sequence, and the stop pass only visits
entries with a `completionSeq` assigned. -/
theorem stop_skips_not_started (r : Run) (hwf : RunWf r) (a : ModuleEntry)
    (ha : a ∈ r.entries) (hns : a.state = ModuleState.NotStarted) :
    a.completionSeq = none
    ∧ teardownPos r a.name = none
    ∧ a ∉ stopOrder r
    ∧ ∀ e ∈ stopOrder r, e.completionSeq.isSome = true := by
  have hterm : ¬ Terminal a.state := by
    rw [hns]; rintro (h | h) <;> cases h
  have hnc : ¬ completedEntry a := fun hc => hterm (((hwf.2.2 a ha).1).mpr hc)
  have hnone : a.completionSeq = none := by
    cases h : a.completionSeq with
    | none => rfl
    | some v => exact absurd (show a.completionSeq.isSome = true by rw [h]; rfl) hnc
  refine ⟨hnone, ?_, fun h => hnc (mem_stopOrder.mp h).2, fun e he => (mem_stopOrder.mp he).2⟩
  show posOfName (stopOrder r) a.name = none
  by_contra hne
  rcases Option.ne_none_iff_exists'.mp hne with ⟨i, hi⟩
  obtain ⟨e, he, hen⟩ := mem_of_posOfName_some hi
  have hecomp := (mem_stopOrder.mp he).2
  have heent := (mem_stopOrder.mp he).1
  have hneq : e ≠ a := fun h => hnc (h ▸ hecomp)
  exact List.Pairwise.forall (fun _ _ h => Ne.symm h) hwf.1 heent ha hneq hen

/-- C7 witness at a concrete cancelled run: entry `n` never started. -/
theorem stop_skips_not_started_witness :
    (⟨"n", ModuleState.NotStarted, none, []⟩ : ModuleEntry).completionSeq = none
    ∧ teardownPos runC7 "n" = none
    ∧ (⟨"n", ModuleState.NotStarted, none, []⟩ : ModuleEntry) ∉ stopOrder runC7
    ∧ ∀ e ∈ stopOrder runC7, e.completionSeq.isSome = true :=
  stop_skips_not_started runC7 (by decide)
    ⟨"n", ModuleState.NotStarted, none, []⟩ (by decide) rfl

theorem find?_map_name_preserving (l : List CtxEntry) (f : CtxEntry → CtxEntry)
    (hf : ∀ e, (f e).name = e.name) (n : String) :
    (l.map f).find? (fun e => e.name == n) = (l.find? fun e => e.name == n).map f := by
  induction l with
  | nil => rfl
  | cons a as ih =>
    rw [List.map_cons]
    cases h : (a.name == n) with
    | true =>
      have h' : ((f a).name == n) = true := by rw [hf]; exact h
      simp [List.find?_cons, h, h']
    | false =>
      have h' : ((f a).name == n) = false := by rw [hf]; exact h
      simp [List.find?_cons, h, h', ih]

theorem findEntry_addWaiter (ctx : Ctx) (t c n : String) :
    findEntry (addWaiter ctx t c) n =
      (findEntry ctx n).map fun e =>
        if e.name = t then { e with waiters := e.waiters ++ [c] } else e := by
  unfold findEntry addWaiter
  exact find?_map_name_preserving ctx.entries _
    (fun e => by by_cases h : e.name = t <;> simp [h]) n

/-- C3: with the run not cancelled, resolve on a Ready entry returns its
instance handle immediately with the registry untouched; on a Constructing
entry (no cycle) it enqueues the caller as a waiter and suspends; the
transition of the entry to Ready delivers the handle to every suspended
waiter; and a successful resolve is only ever observed on a Ready entry. -/
theorem resolve_ready_or_constructing (ctx : Ctx) (caller target : String) (e : CtxEntry)
    (hfind : findEntry ctx target = some e) (hnc : ctx.cancelled = false) :
    (e.state = ModuleState.Ready →
      resolve ctx caller target = (ResolveResult.ok (e.inst.getD 0), ctx))
    ∧ (e.state = ModuleState.Constructing → hasCycle ctx caller target = false →
        resolve ctx caller target = (ResolveResult.suspended, addWaiter ctx target caller)
        ∧ ∃ e2, findEntry (addWaiter ctx target caller) target = some e2 ∧ caller ∈ e2.waiters)
    ∧ (∀ w inst, w ∈ e.waiters → (w, ResolveResult.ok inst) ∈ (markReady ctx target inst).2)
    ∧ (∀ h st, resolve ctx caller target = (ResolveResult.ok h, st) →
        e.state = ModuleState.Ready) := by
  refine ⟨?_, ?_, ?_, ?_⟩
  · intro hr
    simp [resolve, hnc, hfind, hr]
  · intro hc hcy
    refine ⟨by simp [resolve, hnc, hfind, hc, hcy], ?_⟩
    have hname : e.name = target := by
      have hb := List.find?_some hfind
      exact eq_of_beq hb
    refine ⟨{ e with waiters := e.waiters ++ [caller] }, ?_, ?_⟩
    · rw [findEntry_addWaiter, hfind]
      simp [hname]
    · simp
  · intro w inst hw
    simp only [markReady, hfind]
    exact List.mem_map_of_mem _ hw
  · intro h st hres
    cases hstate : e.state
    case Ready => rfl
    case Constructing =>
      by_cases hcy : hasCycle ctx caller target = true
      · simp [resolve, hnc, hfind, hstate, hcy] at hres
      · simp [resolve, hnc, hfind, hstate, hcy] at hres
    all_goals simp [resolve, hnc, hfind, hstate] at hres

/-- C3 witness at a concrete context: `a` is Ready with handle 7, `b` is
Constructing; resolving `a` succeeds immediately, resolving `b` suspends and
enqueues the caller, and marking `b` Ready wakes its waiter `w0`. -/
theorem resolve_ready_or_constructing_witness :
    resolve ctxC3 "caller" "a" = (ResolveResult.ok 7, ctxC3)
    ∧ (resolve ctxC3 "caller" "b" = (ResolveResult.suspended, addWaiter ctxC3 "b" "caller")
       ∧ ∃ e2, findEntry (addWaiter ctxC3 "b" "caller") "b" = some e2 ∧ "caller" ∈ e2.waiters)
    ∧ ("w0", ResolveResult.ok 9) ∈ (markReady ctxC3 "b" 9).2 :=
  ⟨(resolve_ready_or_constructing ctxC3 "caller" "a"
      ⟨"a", ModuleState.Ready, some 7, []⟩ (by decide) rfl).1 rfl,
   (resolve_ready_or_constructing ctxC3 "caller" "b"
      ⟨"b", ModuleState.Constructing, none, ["w0"]⟩ (by decide) rfl).2.1 rfl (by decide),
   (resolve_ready_or_constructing ctxC3 "caller" "b"
      ⟨"b", ModuleState.Constructing, none, ["w0"]⟩ (by decide) rfl).2.2.1 "w0" 9 (by decide)⟩

/-- C4: resolve fails immediately with a load-cancelled error, leaving the
registry untouched (so it never suspends), whenever the global cancellation
flag is set or the target entry is Failed, Destroying or Destroyed; and
setting the cancellation flag wakes every suspended waiter of every entry with
exactly that load-cancelled failure, leaving no waiter queued. -/
theorem resolve_load_cancelled (ctx : Ctx) (caller target w : String) :
    (ctx.cancelled = true → resolve ctx caller target = (ResolveResult.loadCancelled, ctx))
    ∧ (∀ e, findEntry ctx target = some e →
        (e.state = ModuleState.Failed ∨ e.state = ModuleState.Destroying ∨
          e.state = ModuleState.Destroyed) →
        resolve ctx caller target = (ResolveResult.loadCancelled, ctx))
    ∧ ((∃ e ∈ ctx.entries, w ∈ e.waiters) →
        (w, ResolveResult.loadCancelled) ∈ (setCancelled ctx).2)
    ∧ (∀ e ∈ (setCancelled ctx).1.entries, e.waiters = ([] : List String))
    ∧ (setCancelled ctx).1.cancelled = true := by
  refine ⟨?_, ?_, ?_, ?_, rfl⟩
  · intro h
    simp [resolve, h]
  · intro e hfind hst
    cases hc : ctx.cancelled
    · rcases hst with h | h | h <;> simp [resolve, hc, hfind, h]
    · simp [resolve, hc]
  · rintro ⟨e, he, hw⟩
    show (w, ResolveResult.loadCancelled) ∈
      ctx.entries.flatMap fun e => e.waiters.map fun w => (w, ResolveResult.loadCancelled)
    rw [List.mem_flatMap]
    exact ⟨e, he, List.mem_map_of_mem _ hw⟩
  · intro e he
    simp only [setCancelled, List.mem_map] at he
    obtain ⟨x, _, rfl⟩ := he
    rfl

/-- C4 witness at concrete contexts: a cancelled run fails a resolve on a
Ready entry, a Failed target fails a resolve, and cancellation wakes the
suspended waiter `w1` with load-cancelled. -/
theorem resolve_load_cancelled_witness :
    resolve ctxC4c "x" "a" = (ResolveResult.loadCancelled, ctxC4c)
    ∧ resolve ctxC4 "x" "f" = (ResolveResult.loadCancelled, ctxC4)
    ∧ ("w1", ResolveResult.loadCancelled) ∈ (setCancelled ctxC4).2 :=
  ⟨(resolve_load_cancelled ctxC4c "x" "a" "w1").1 rfl,
   (resolve_load_cancelled ctxC4 "x" "f" "w1").2.1
     ⟨"f", ModuleState.Failed, none, []⟩ (by decide) (Or.inl rfl),
   (resolve_load_cancelled ctxC4 "x" "f" "w1").2.2.1
     ⟨⟨"b", ModuleState.Constructing, none, ["w1"]⟩, by decide, by decide⟩⟩

/-- C5: when the wait-for walk from the target revisits the caller, resolve
fails immediately with a dependency-cycle error and the registry is untouched:
the call is not suspended, so the cycle member observes DependencyCycle
instead of waiting forever. -/
theorem resolve_dependency_cycle (ctx : Ctx) (caller target : String) (e : CtxEntry)
    (hfind : findEntry ctx target = some e) (hnc : ctx.cancelled = false)
    (hcon : e.state = ModuleState.Constructing)
    (hcyc : hasCycle ctx caller target = true) :
    resolve ctx caller target = (ResolveResult.dependencyCycle, ctx) := by
  simp [resolve, hnc, hfind, hcon, hcyc]

/-- C5 witness at a concrete two-cycle: `b` is already suspended on `a`, and
`a` resolving `b` observes DependencyCycle immediately. -/
theorem resolve_dependency_cycle_witness :
    resolve ctxC5 "a" "b" = (ResolveResult.dependencyCycle, ctxC5) :=
  resolve_dependency_cycle ctxC5 "a" "b"
    ⟨"b", ModuleState.Constructing, none, []⟩ (by decide) rfl rfl (by decide)

/-- C8: the two-argument `Subscribe` / `Psubscribe` overloads forward their
arguments unchanged to the three-argument overloads called with a
default-constructed `CommandControl` and return that overload's token. -/
theorem subscribe_overloads_default_control (Token Cb PCb CC : Type)
    (c : SubscribeClient Token Cb PCb CC) (channel pat : String) (cb : Cb) (pcb : PCb) :
    c.SubscribeNoControl channel cb = c.Subscribe channel cb c.defaultCommandControl
    ∧ c.SubscribeNoControl channel cb = c.SubscribeSpec channel cb
    ∧ c.PsubscribeNoControl pat pcb = c.Psubscribe pat pcb c.defaultCommandControl
    ∧ c.PsubscribeNoControl pat pcb = c.PsubscribeSpec pat pcb :=
  ⟨rfl, rfl, rfl, rfl⟩

/-- C9: both `GetStorage` overloads return the component's own `storage_`
member, so all returned references alias one object. -/
theorem get_storage_same_object (s : StatisticsStorage) :
    s.GetStorage = s.storage_
    ∧ s.GetStorageConst = s.storage_
    ∧ s.GetStorage = s.GetStorageConst :=
  ⟨rfl, rfl, rfl⟩

/-- C10: `load-enabled` defaults to true (a component whose config does not
set it is loaded); a component with `load-enabled: false` is not constructed;
and each component's loading is decided only by its own effective flag, so
other components are unaffected. -/
theorem load_enabled_option (cfgs : List ComponentConfig) (c : ComponentConfig)
    (hc : c ∈ cfgs) :
    (c.loadEnabledOpt = none → c ∈ componentsToLoad cfgs)
    ∧ (c.loadEnabledOpt = some false → c ∉ componentsToLoad cfgs)
    ∧ ∀ d, d ∈ componentsToLoad cfgs ↔ d ∈ cfgs ∧ loadEnabled d = true := by
  refine ⟨?_, ?_, fun d => List.mem_filter⟩
  · intro h
    exact List.mem_filter.mpr ⟨hc, by simp [loadEnabled, h]⟩
  · intro h hmem
    have hl := (List.mem_filter.mp hmem).2
    simp [loadEnabled, h] at hl

/-- C10 witness at a concrete config set: `p` (no option) is loaded, `q`
(`load-enabled: false`) is not, and `s` obeys the membership equation. -/
theorem load_enabled_option_witness :
    ((⟨"p", none⟩ : ComponentConfig) ∈ componentsToLoad cfgsC10)
    ∧ ((⟨"q", some false⟩ : ComponentConfig) ∉ componentsToLoad cfgsC10)
    ∧ (((⟨"s", some true⟩ : ComponentConfig) ∈ componentsToLoad cfgsC10) ↔
        ((⟨"s", some true⟩ : ComponentConfig) ∈ cfgsC10
          ∧ loadEnabled ⟨"s", some true⟩ = true)) :=
  ⟨(load_enabled_option cfgsC10 ⟨"p", none⟩ (by decide)).1 rfl,
   (load_enabled_option cfgsC10 ⟨"q", some false⟩ (by decide)).2.1 rfl,
   (load_enabled_option cfgsC10 ⟨"s", some true⟩ (by decide)).2.2 ⟨"s", some true⟩⟩

end Userver
